import Mathlib

/-!
Verification development for `portfolio_metrics_engine.py` (class
`PortfolioMetricsEngine`).

Modelling conventions:
* Python floats are modelled as exact rationals (`ℚ`).  All counterexamples
  below involve quantities whose magnitudes are far larger than double
  rounding error, so they are robust to the float/rational gap.
* `datetime` values are modelled by the instants they denote, as natural
  numbers; `datetime.min` is `0` and comparison is `≤` on `ℕ`.
* The persisted CSV cells are produced by `_format_decimal` and read back by
  `_safe_float`.  The theorem `safeFloat_formatDecimal` below proves that this
  round trip equals `round8` (rounding to 8 decimal places), so the engine
  state keeps rational fields and applies `round8` wherever the source writes
  a formatted cell (lines 155-159 and 181-188).
-/

/-- Rounding to 8 decimal places: the value that survives a
`_format_decimal` / `_safe_float` round trip (see `safeFloat_formatDecimal`). -/
def round8 (x : ℚ) : ℚ := (round (x * 100000000) : ℤ) / 100000000

/-- One record produced by `_read_trade_data` (lines 50-56): symbol, price,
quantity, execution instant, and the buy/sell flag. -/
structure Trade where
  symbol : String
  price : ℚ
  qty : ℚ
  time : ℕ
  is_buyer : Bool
deriving DecidableEq

/-- One data row of `portfolio_metrics.csv` (header at line 96):
`symbol, average_price, quantity, last_trade_time, break_even, realized_pnl`.
Numeric cells hold the parsed value of the stored 8-decimal string. -/
structure PositionRow where
  symbol : String
  average_price : ℚ
  quantity : ℚ
  last_trade_time : ℕ
  break_even : ℚ
  realized_pnl : ℚ
deriving DecidableEq

/-- The in-memory state of `update_portfolio`: the data rows of the sheet (in
order, header dropped) and the `modified_symbols` set.  The source keys
`portfolio_map` by symbol (line 100); the engine never creates two rows with
the same symbol, and we model lookup as first match. -/
structure EngineState where
  ledger : List PositionRow
  modified : Finset String
deriving DecidableEq

/-- `symbol in portfolio_map` / `portfolio_map[symbol]` (lines 117-118). -/
def findRow (ledger : List PositionRow) (sym : String) : Option PositionRow :=
  ledger.find? (fun r => r.symbol == sym)

/-- In-place mutation of the row object shared between `portfolio_map` and
`sheet_rows` (lines 155-159): replace the row keyed by `sym`. -/
def replaceRow : List PositionRow → String → PositionRow → List PositionRow
  | [], _, _ => []
  | r :: rs, sym, nr => if r.symbol == sym then nr :: rs else r :: replaceRow rs sym nr

/-- The local variables `final_avg_price`, `final_qty`, `final_break_even`,
`new_realized_pnl` of `update_portfolio`, before they are formatted into the
row (i.e. before the 8-decimal rounding of persistence). -/
structure Locals where
  final_avg_price : ℚ
  final_qty : ℚ
  final_break_even : ℚ
  new_realized_pnl : ℚ
deriving DecidableEq

/-- Lines 126-152: the update of an existing position.  Returns `none` when
the trade is a sell with `tx_qty > current_qty` (lines 136-138, `continue`). -/
def existingLocals (row : PositionRow) (t : Trade) : Option Locals :=
  let current_avg_price := row.average_price
  let current_qty := row.quantity
  let current_realized_pnl := row.realized_pnl
  if t.is_buyer then
    let total_cost := current_avg_price * current_qty
    let new_cost := t.price * t.qty
    let final_qty := current_qty + t.qty
    let final_avg_price := if 0 < final_qty then (total_cost + new_cost) / final_qty else 0
    let new_realized_pnl := current_realized_pnl
    let final_break_even :=
      if 0 < final_qty then (final_avg_price * final_qty - new_realized_pnl) / final_qty else 0
    some { final_avg_price := final_avg_price, final_qty := final_qty,
           final_break_even := final_break_even, new_realized_pnl := new_realized_pnl }
  else
    if current_qty < t.qty then none
    else
      let pnl_from_sale := (t.price - current_avg_price) * t.qty
      let new_realized_pnl := current_realized_pnl + pnl_from_sale
      let final_qty := current_qty - t.qty
      let final_avg_price := current_avg_price
      let final_break_even :=
        if 0 < final_qty then (final_avg_price * final_qty - new_realized_pnl) / final_qty else 0
      some { final_avg_price := final_avg_price, final_qty := final_qty,
             final_break_even := final_break_even, new_realized_pnl := new_realized_pnl }

/-- Lines 163-179: the new-asset entry (no row for the symbol yet). -/
def newLocals (t : Trade) : Locals :=
  let final_avg_price := t.price
  let final_qty := if t.is_buyer then t.qty else -t.qty
  let new_realized_pnl : ℚ := 0
  let final_break_even :=
    if final_qty ≠ 0 then (final_avg_price * final_qty - new_realized_pnl) / final_qty else 0
  { final_avg_price := final_avg_price, final_qty := final_qty,
    final_break_even := final_break_even, new_realized_pnl := new_realized_pnl }

/-- Writing the locals into a row with `_format_decimal` (lines 155-159 and
181-188): every numeric cell is the 8-decimal rounding of the local value. -/
def storeRow (sym : String) (time : ℕ) (L : Locals) : PositionRow :=
  { symbol := sym
    average_price := round8 L.final_avg_price
    quantity := round8 L.final_qty
    last_trade_time := time
    break_even := round8 L.final_break_even
    realized_pnl := round8 L.new_realized_pnl }

/-- The body of the per-trade loop after the cutoff filter (lines 117-192). -/
def processBody (st : EngineState) (t : Trade) : EngineState :=
  match findRow st.ledger t.symbol with
  | some row =>
      match existingLocals row t with
      | none => st
      | some L =>
          { ledger := replaceRow st.ledger t.symbol (storeRow t.symbol t.time L)
            modified := insert t.symbol st.modified }
  | none =>
      { ledger := st.ledger ++ [storeRow t.symbol t.time (newLocals t)]
        modified := insert t.symbol st.modified }

/-- One iteration of the loop at line 104, including the incremental filter
`if tx_date <= cutoff_date: continue` (lines 112-113). -/
def tradeStep (cutoff : ℕ) (st : EngineState) (t : Trade) : EngineState :=
  if t.time ≤ cutoff then st else processBody st t

/-- The processing loop of `update_portfolio` over the (time-sorted) trade
list (lines 104-192). -/
def updatePortfolio (cutoff : ℕ) (st : EngineState) (trades : List Trade) : EngineState :=
  trades.foldl (tradeStep cutoff) st

/-- A trade is accepted when it passes the cutoff filter and is not the
rejected overdraft sell of lines 136-138. -/
def tradeAccepted (cutoff : ℕ) (st : EngineState) (t : Trade) : Bool :=
  decide (cutoff < t.time) &&
    (match findRow st.ledger t.symbol with
     | some row => t.is_buyer || decide (t.qty ≤ row.quantity)
     | none => true)

/-- `datetime.min`, the initial value of `cutoff_date` (line 76). -/
def minTimestamp : ℕ := 0

/-- Lines 76-81: the sync-cursor load.  `none` models an absent
`last_sync_time.txt`, `some none` a file whose stripped content is empty,
`some (some ts)` a file holding a timestamp (represented by the instant the
`%Y-%m-%d %H:%M:%S` string denotes). -/
def loadCutoff : Option (Option ℕ) → ℕ
  | none => minTimestamp
  | some none => minTimestamp
  | some (some ts) => ts

/-! ## Decimal normalizer: `_format_decimal` and `_safe_float` at string level -/

/-- The character of a decimal digit. -/
def digitChar (d : ℕ) : Char := Char.ofNat (48 + d)

/-- Decimal rendering of a natural number, most significant digit first
(Python's rendering of the integral part of a float). -/
def renderNat (n : ℕ) : List Char :=
  if n = 0 then ['0'] else (Nat.digits 10 n).reverse.map digitChar

/-- Left-padding with `'0'` up to `k` characters (the fixed 8 fraction digits
of `f"{value:.8f}"`). -/
def padZeros (k : ℕ) (l : List Char) : List Char :=
  List.replicate (k - l.length) '0' ++ l

/-- Model of `_format_decimal` (lines 64-66):
`f"{value:.8f}".replace('.', ',')`.  The float format rounds the value to 8
decimal places and always renders a sign (for negative values), the integral
digits, the separator and exactly 8 fraction digits. -/
def formatDecimal (x : ℚ) : String :=
  let n : ℕ := (round (x * 100000000)).natAbs
  ⟨(if x < 0 then ['-'] else []) ++ renderNat (n / 100000000)
    ++ [','] ++ padZeros 8 (renderNat (n % 100000000))⟩

/-- Numeric value of a digit character. -/
def digitVal (c : Char) : Option ℕ :=
  if c.isDigit then some (c.toNat - 48) else none

/-- Value of a most-significant-first digit list. -/
def digitsVal (l : List ℕ) : ℕ := l.foldl (fun a d => 10 * a + d) 0

/-- Digit values of a character list; `none` on a non-digit character. -/
def parseDigits : List Char → Option (List ℕ)
  | [] => some []
  | c :: cs =>
      match digitVal c, parseDigits cs with
      | some d, some ds => some (d :: ds)
      | _, _ => none

/-- Python `float` on an unsigned plain decimal literal (an optional single
`'.'` between digit runs); `none` models the `ValueError` raised on malformed
text.  (Scientific notation, `inf`/`nan` and digit underscores are accepted by
Python's `float` but never arise from the engine's own persisted cells.) -/
def parseUnsigned (l : List Char) : Option ℚ :=
  let ip := l.takeWhile (fun c => c != '.')
  match l.dropWhile (fun c => c != '.') with
  | [] => if ip.isEmpty then none else (parseDigits ip).map (fun ds => (digitsVal ds : ℚ))
  | _ :: fp =>
      if fp.contains '.' then none
      else if ip.isEmpty && fp.isEmpty then none
      else
        match parseDigits ip, parseDigits fp with
        | some ids, some fds =>
            some ((digitsVal ids : ℚ) + (digitsVal fds : ℚ) / 10 ^ fp.length)
        | _, _ => none

/-- Python `float` on an already-stripped string: optional sign, then an
unsigned decimal literal. -/
def parseFloat (s : String) : Option ℚ :=
  match s.data with
  | [] => none
  | c :: rest =>
      if c == '-' then (parseUnsigned rest).map (fun q => -q)
      else if c == '+' then parseUnsigned rest
      else parseUnsigned (c :: rest)

/-- Python `str.strip()`: drop whitespace from both ends. -/
def pyStrip (s : String) : String :=
  ⟨((s.data.dropWhile Char.isWhitespace).reverse.dropWhile Char.isWhitespace).reverse⟩

/-- Python `str.replace(a, b)` for single-character arguments. -/
def pyReplace (a b : Char) (s : String) : String :=
  ⟨s.data.map (fun c => if c == a then b else c)⟩

/-- Model of `_safe_float` (lines 68-73): strip, return `0` on emptiness,
otherwise `float` of the string with `','` replaced by `'.'`. -/
def safeFloat (s : String) : Option ℚ :=
  let v := pyStrip s
  if v.data.isEmpty then some 0 else parseFloat (pyReplace ',' '.' v)

/-! ## Trade-record construction (`_read_trade_data`) -/

/-- Lines 48-56: building one trade record from the comma-split fields.  The
timestamp string is represented by the instant its `%Y-%m-%d %H:%M:%S` form
denotes; `float(price)` and `float(qty)` are `parseFloat`; the side flag is
the exact string comparison `is_buyer_str == 'True'` of line 55. -/
def recordOfParts (symbol price qty : String) (time : ℕ) (is_buyer_str : String) :
    Option Trade :=
  match parseFloat price, parseFloat qty with
  | some p, some q =>
      some { symbol := symbol, price := p, qty := q, time := time,
             is_buyer := is_buyer_str == "True" }
  | _, _ => none

/-! ## Persistence tail of `update_portfolio` (lines 194-209) -/

/-- Outcome of one Python file-write attempt. -/
inductive WriteAttempt : Type
  | ok : WriteAttempt
  | ioError : WriteAttempt
deriving DecidableEq

/-- A write attempt against a file that is writable or not. -/
def writeAttempt (writable : Bool) : WriteAttempt :=
  if writable then WriteAttempt.ok else WriteAttempt.ioError

/-- Observable outcome of the persistence phase. -/
structure PersistResult where
  ledgerPersisted : Bool
  reportPersisted : Bool
  errorLogged : Bool
  raised : Bool
deriving DecidableEq

/-- Lines 194-209: the CSV write is wrapped in `try/except IOError` whose
handler calls `logging.error` and falls through; the modified-assets log write
is wrapped in `try/except IOError: pass`.  Neither handler re-raises, so the
function always returns normally. -/
def runPersist (ledgerWritable reportWritable : Bool) : PersistResult :=
  let csvOutcome :=
    match writeAttempt ledgerWritable with
    | WriteAttempt.ok => (true, false)
    | WriteAttempt.ioError => (false, true)
  let logOutcome :=
    match writeAttempt reportWritable with
    | WriteAttempt.ok => true
    | WriteAttempt.ioError => false
  { ledgerPersisted := csvOutcome.1, reportPersisted := logOutcome,
    errorLogged := csvOutcome.2, raised := false }

/-! ## Spec-side definitions for the average-price claim -/

/-- Total quantity of a trade list (spec §8, average-price invariant). -/
def totalQty (ts : List Trade) : ℚ := (ts.map (fun t => t.qty)).sum

/-- Total cost (sum of `price * qty`) of a trade list (spec §8). -/
def totalCost (ts : List Trade) : ℚ := (ts.map (fun t => t.price * t.qty)).sum

/-- Modelled from the spec (§8): the true quantity-weighted mean of the trade
prices of a list of trades. -/
def specWeightedMean (ts : List Trade) : ℚ := totalCost ts / totalQty ts

/-- The buy-side recurrence of `update_portfolio` (lines 128-132) on the
running pair (average price, quantity), without the 8-decimal persistence
rounding that lines 155-156 apply between trades. -/
def buyStep (s : ℚ × ℚ) (t : Trade) : ℚ × ℚ :=
  let final_qty := s.2 + t.qty
  (if 0 < final_qty then (s.1 * s.2 + t.price * t.qty) / final_qty else 0, final_qty)

/-- The buy-side recurrence folded from a fresh symbol (quantity `0`). -/
def exactBuyFold (ts : List Trade) : ℚ × ℚ := ts.foldl buyStep (0, 0)

/-! ## Helper lemmas -/

lemma round_nonneg_of_nonneg {y : ℚ} (h : 0 ≤ y) : (0 : ℤ) ≤ round y := by
  have h0 : ⌊(1 / 2 : ℚ)⌋ = 0 := by norm_num
  rw [round_eq]
  calc (0 : ℤ) = ⌊(1 / 2 : ℚ)⌋ := h0.symm
    _ ≤ ⌊y + 1 / 2⌋ := Int.floor_mono (by linarith)

lemma round8_nonneg {x : ℚ} (h : 0 ≤ x) : 0 ≤ round8 x := by
  unfold round8
  refine div_nonneg ?_ (by norm_num)
  exact_mod_cast round_nonneg_of_nonneg (by positivity)

lemma findRow_replaceRow {s : String} (nr : PositionRow) (hs : nr.symbol = s) :
    ∀ l : List PositionRow, (findRow l s).isSome →
      findRow (replaceRow l s nr) s = some nr := by
  intro l
  induction l with
  | nil => intro h; simp [findRow] at h
  | cons r rs ih =>
      intro h
      by_cases hr : (r.symbol == s) = true
      · rw [replaceRow, if_pos hr, findRow, List.find?_cons_of_pos _ (by simp [hs])]
      · rw [findRow, List.find?_cons_of_neg _ (by simpa using hr)] at h
        rw [replaceRow, if_neg hr, findRow, List.find?_cons_of_neg _ (by simpa using hr)]
        exact ih h

lemma modified_subset_tradeStep (cutoff : ℕ) (st : EngineState) (t : Trade) :
    st.modified ⊆ (tradeStep cutoff st t).modified := by
  by_cases ht : t.time ≤ cutoff
  · rw [tradeStep, if_pos ht]
  · rw [tradeStep, if_neg ht, processBody]
    rcases hf : findRow st.ledger t.symbol with _ | row <;> simp only [hf]
    · exact fun s hs => Finset.mem_insert_of_mem hs
    · rcases hL : existingLocals row t with _ | L <;> simp only [hL]
      · exact subset_rfl
      · exact fun s hs => Finset.mem_insert_of_mem hs

lemma modified_subset_updatePortfolio (cutoff : ℕ) (ts : List Trade) :
    ∀ st : EngineState, st.modified ⊆ (updatePortfolio cutoff st ts).modified := by
  induction ts with
  | nil => intro st; exact subset_rfl
  | cons t ts ih =>
      intro st
      exact (modified_subset_tradeStep cutoff st t).trans (ih (tradeStep cutoff st t))

lemma existingLocals_eq_none_iff {row : PositionRow} {t : Trade} :
    existingLocals row t = none ↔ t.is_buyer = false ∧ row.quantity < t.qty := by
  unfold existingLocals
  cases hb : t.is_buyer
  · by_cases hq : row.quantity < t.qty
    · simp [hq]
    · simp [hq]
  · simp

lemma oversell_skip {cutoff : ℕ} {st : EngineState} {t : Trade} {row : PositionRow}
    (hf : findRow st.ledger t.symbol = some row) (hs : t.is_buyer = false)
    (hq : row.quantity < t.qty) : tradeStep cutoff st t = st := by
  by_cases ht : t.time ≤ cutoff
  · rw [tradeStep, if_pos ht]
  · simp only [tradeStep, if_neg ht, processBody, hf, existingLocals_eq_none_iff.mpr ⟨hs, hq⟩]

lemma tradeStep_of_not_accepted {cutoff : ℕ} {st : EngineState} {t : Trade}
    (h : tradeAccepted cutoff st t = false) : tradeStep cutoff st t = st := by
  by_cases ht : t.time ≤ cutoff
  · rw [tradeStep, if_pos ht]
  · have hlt : cutoff < t.time := not_le.mp ht
    have hd : decide (cutoff < t.time) = true := decide_eq_true hlt
    rcases hf : findRow st.ledger t.symbol with _ | row
    · simp [tradeAccepted, hf, hd] at h
    · simp only [tradeAccepted, hf, hd, Bool.true_and, Bool.or_eq_false_iff,
        decide_eq_false_iff_not, not_le] at h
      exact oversell_skip hf h.1 h.2

lemma modified_tradeStep_of_accepted {cutoff : ℕ} {st : EngineState} {t : Trade}
    (h : tradeAccepted cutoff st t = true) :
    (tradeStep cutoff st t).modified = insert t.symbol st.modified := by
  rw [tradeAccepted, Bool.and_eq_true] at h
  obtain ⟨h1, h2⟩ := h
  have hlt : cutoff < t.time := of_decide_eq_true h1
  rw [tradeStep, if_neg (not_le.mpr hlt), processBody]
  rcases hf : findRow st.ledger t.symbol with _ | row
  · simp [hf]
  · simp only [hf] at h2 ⊢
    rcases hL : existingLocals row t with _ | L
    · rw [existingLocals_eq_none_iff] at hL
      simp only [hL.1, Bool.false_or, decide_eq_true_eq] at h2
      exact absurd h2 (not_le.mpr hL.2)
    · simp [hL]

lemma existingLocals_some_qty {row : PositionRow} {t : Trade} {L : Locals}
    (hL : existingLocals row t = some L) (h0 : 0 ≤ row.quantity) (hq : 0 < t.qty) :
    0 ≤ L.final_qty := by
  cases hb : t.is_buyer
  · by_cases hlt : row.quantity < t.qty
    · rw [existingLocals_eq_none_iff.mpr ⟨hb, hlt⟩] at hL; cases hL
    · simp only [existingLocals, hb, Bool.false_eq_true, if_false, if_neg hlt,
        Option.some.injEq] at hL
      subst hL
      simpa using sub_nonneg.mpr (not_lt.mp hlt)
  · simp only [existingLocals, hb, if_true, Option.some.injEq] at hL
    subst hL
    simpa using add_nonneg h0 hq.le

lemma totalQty_nonneg {ts : List Trade} (h : ∀ t ∈ ts, 0 < t.qty) : 0 ≤ totalQty ts := by
  induction ts with
  | nil => simp [totalQty]
  | cons t ts ih =>
      have h1 : 0 < t.qty := h t (List.mem_cons_self t ts)
      have h2 : 0 ≤ totalQty ts := ih fun u hu => h u (List.mem_cons_of_mem t hu)
      simp only [totalQty, List.map_cons, List.sum_cons]
      have := add_nonneg h1.le h2
      simpa [totalQty] using this

lemma buyFold_invariant {ts : List Trade} (h : ∀ t ∈ ts, 0 < t.qty) :
    ∀ a q : ℚ, 0 ≤ q →
      (ts.foldl buyStep (a, q)).2 = q + totalQty ts ∧
      (ts.foldl buyStep (a, q)).1 * (ts.foldl buyStep (a, q)).2 = a * q + totalCost ts := by
  induction ts with
  | nil => intro a q _; simp [totalQty, totalCost]
  | cons t ts ih =>
      intro a q hq
      have ht : 0 < t.qty := h t (List.mem_cons_self t ts)
      have hts : ∀ u ∈ ts, 0 < u.qty := fun u hu => h u (List.mem_cons_of_mem t hu)
      have hpos : 0 < q + t.qty := by linarith
      have hstep : buyStep (a, q) t = ((a * q + t.price * t.qty) / (q + t.qty), q + t.qty) := by
        simp [buyStep, hpos]
      have hfold : (t :: ts).foldl buyStep (a, q) = ts.foldl buyStep (buyStep (a, q) t) := rfl
      obtain ⟨hsnd, hfst⟩ :=
        ih hts ((a * q + t.price * t.qty) / (q + t.qty)) (q + t.qty) hpos.le
      refine ⟨?_, ?_⟩
      · rw [hfold, hstep, hsnd]
        simp only [totalQty, List.map_cons, List.sum_cons]
        ring
      · rw [hfold, hstep, hfst, div_mul_cancel₀ _ hpos.ne']
        simp only [totalCost, List.map_cons, List.sum_cons]
        ring

/-! ## Claim theorems -/

/-- **C1** (counterexample).  A sell trade passing the cutoff filter for a
symbol with no position row does *not* leave the ledger unchanged: the run
`sell 5 @ 10` on an empty ledger creates a short row with quantity `-5`, so
the position is not absent and the trade was not rejected. -/
theorem sell_without_position_cex :
    ((updatePortfolio 0 { ledger := [], modified := ∅ }
        [{ symbol := "XYZBTC", price := 10, qty := 5, time := 1, is_buyer := false }]).ledger.map
          (fun r => (r.symbol, r.quantity))) = [("XYZBTC", -5)] := by
  norm_num [updatePortfolio, tradeStep, processBody, findRow, newLocals, storeRow, round8,
    round_eq]

/-- **C1** (amended).  A sell trade passing the cutoff filter for a symbol
with no position row is not rejected: it appends a new short row built from
`newLocals` (lines 169-174: `averagePrice = price`, `quantity = -qty`,
`realizedPnl = 0`) and records the symbol as modified.  Only a sell against an
*existing* row with `qty > quantity` is rejected. -/
theorem sell_without_position_opens_short (cutoff : ℕ) (st : EngineState) (t : Trade)
    (ht : cutoff < t.time) (hs : t.is_buyer = false)
    (hf : findRow st.ledger t.symbol = none) :
    tradeStep cutoff st t
      = { ledger := st.ledger ++ [storeRow t.symbol t.time (newLocals t)],
          modified := insert t.symbol st.modified } ∧
    (newLocals t).final_avg_price = t.price ∧
    (newLocals t).final_qty = -t.qty ∧
    (newLocals t).new_realized_pnl = 0 := by
  refine ⟨?_, by simp [newLocals], by simp [newLocals, hs], by simp [newLocals]⟩
  rw [tradeStep, if_neg (not_le.mpr ht), processBody]
  simp only [hf]

/-- **C1** (witness for the amended theorem): the concrete sell of 5 units at
price 10 on an empty ledger appends the short row for its symbol. -/
theorem sell_without_position_witness :
    tradeStep 0 { ledger := [], modified := ∅ }
        { symbol := "XYZBTC", price := 10, qty := 5, time := 1, is_buyer := false }
      = { ledger := [] ++ [storeRow "XYZBTC" 1
            (newLocals { symbol := "XYZBTC", price := 10, qty := 5, time := 1,
                         is_buyer := false })],
          modified := insert "XYZBTC" (∅ : Finset String) } :=
  (sell_without_position_opens_short 0 { ledger := [], modified := ∅ }
    { symbol := "XYZBTC", price := 10, qty := 5, time := 1, is_buyer := false }
    (by decide) rfl rfl).1

/-- **C2** (counterexample).  The claimed invariant fails on the persisted
state: buying 1 @ 10 and then selling 0.999999996 @ 10 leaves a stored row
whose `quantity` cell is `0` (the residue `4e-9` rounds to eight decimals as
`0,00000000`) while the stored `break_even` cell is `10`, violating
`quantity == 0 → breakEvenPrice == 0`. -/
theorem break_even_zero_qty_cex :
    ((updatePortfolio 0 { ledger := [], modified := ∅ }
        [{ symbol := "XYZBTC", price := 10, qty := 1, time := 1, is_buyer := true },
         { symbol := "XYZBTC", price := 10, qty := 999999996/1000000000, time := 2,
           is_buyer := false }]).ledger.map
          (fun r => (r.quantity, r.break_even))) = [(0, 10)] := by
  norm_num [updatePortfolio, tradeStep, processBody, findRow, existingLocals, newLocals,
    storeRow, replaceRow, round8, round_eq, List.find?]

/-- **C2** (amended).  The break-even invariant holds for the *computed* local
values of each trade transition, before the 8-decimal persistence rounding:
on the existing-position path `final_break_even * final_qty = final_avg_price
* final_qty - new_realized_pnl` whenever `0 < final_qty` and
`final_break_even = 0` whenever `final_qty ≤ 0`; on the new-position path the
identity holds whenever `final_qty ≠ 0` and `final_break_even = 0` when
`final_qty = 0`.  The persisted row stores the `round8` images of these values
(`storeRow`), which is why the identity can fail on stored cells. -/
theorem break_even_identity_locals (t : Trade) (row : PositionRow) (L : Locals) :
    (existingLocals row t = some L →
      (0 < L.final_qty →
        L.final_break_even * L.final_qty
          = L.final_avg_price * L.final_qty - L.new_realized_pnl) ∧
      (L.final_qty ≤ 0 → L.final_break_even = 0)) ∧
    ((newLocals t).final_qty ≠ 0 →
      (newLocals t).final_break_even * (newLocals t).final_qty
        = (newLocals t).final_avg_price * (newLocals t).final_qty
          - (newLocals t).new_realized_pnl) ∧
    ((newLocals t).final_qty = 0 → (newLocals t).final_break_even = 0) := by
  refine ⟨?_, ?_, ?_⟩
  · intro hL
    cases hb : t.is_buyer
    · by_cases hlt : row.quantity < t.qty
      · rw [existingLocals_eq_none_iff.mpr ⟨hb, hlt⟩] at hL; cases hL
      · simp only [existingLocals, hb, Bool.false_eq_true, if_false, if_neg hlt,
          Option.some.injEq] at hL
        subst hL
        constructor
        · intro hpos
          simp only at hpos ⊢
          rw [if_pos hpos, div_mul_cancel₀ _ hpos.ne']
        · intro hle
          simp only at hle ⊢
          rw [if_neg (not_lt.mpr hle)]
    · simp only [existingLocals, hb, if_true, Option.some.injEq] at hL
      subst hL
      constructor
      · intro hpos
        simp only at hpos ⊢
        rw [if_pos hpos, div_mul_cancel₀ _ hpos.ne']
      · intro hle
        simp only at hle ⊢
        rw [if_neg (not_lt.mpr hle)]
  · intro hne
    simp only [newLocals] at hne ⊢
    rw [if_pos hne, div_mul_cancel₀ _ hne]
  · intro hz
    simp only [newLocals] at hz ⊢
    rw [hz]
    simp

/-- **C2** (witness for the amended theorem): for the fresh buy of 1 unit at
price 10 the new-position locals satisfy the break-even identity. -/
theorem break_even_identity_witness :
    (newLocals ⟨"XYZBTC", 10, 1, 1, true⟩).final_break_even
        * (newLocals ⟨"XYZBTC", 10, 1, 1, true⟩).final_qty
      = (newLocals ⟨"XYZBTC", 10, 1, 1, true⟩).final_avg_price
          * (newLocals ⟨"XYZBTC", 10, 1, 1, true⟩).final_qty
        - (newLocals ⟨"XYZBTC", 10, 1, 1, true⟩).new_realized_pnl :=
  (break_even_identity_locals ⟨"XYZBTC", 10, 1, 1, true⟩
    ⟨"XYZBTC", 0, 0, 0, 0, 0⟩ ⟨0, 0, 0, 0⟩).2.1 (by norm_num [newLocals])

/-- **C3** (counterexample).  On the buy-only run
`[buy 4e-9 @ 1e10, buy 1 @ 0]` on a fresh symbol the stored `averagePrice` is
`0`, while the true quantity-weighted mean of the prices is just under `40`:
the 8-decimal persistence between trades (the quantity `4e-9` is stored as
`0,00000000`) loses the entire cost of the first trade, so the stored average
differs from the weighted mean by far more than 8-decimal precision. -/
theorem average_price_weighted_mean_cex :
    ((updatePortfolio 0 { ledger := [], modified := ∅ }
        [⟨"AAABTC", 10000000000, 4/1000000000, 1, true⟩,
         ⟨"AAABTC", 0, 1, 2, true⟩]).ledger.map (fun r => r.average_price)) = [0] ∧
    39 < specWeightedMean
        [⟨"AAABTC", 10000000000, 4/1000000000, 1, true⟩, ⟨"AAABTC", 0, 1, 2, true⟩] := by
  constructor
  · norm_num [updatePortfolio, tradeStep, processBody, findRow, existingLocals, newLocals,
      storeRow, replaceRow, round8, round_eq, List.find?]
  · norm_num [specWeightedMean, totalCost, totalQty]

/-- **C3** (amended).  The buy-side recurrence of `update_portfolio`
(lines 128-132), folded from a fresh symbol *without* the 8-decimal
persistence rounding applied between trades, computes exactly the
quantity-weighted mean of the trade prices: for a buy-only sequence with
positive quantities, the resulting quantity is the total quantity, average
times quantity is the total cost, and for a non-empty sequence the average
equals `specWeightedMean`.  With the implemented intermediate rounding the
stored average can differ from the weighted mean (see the counterexample). -/
theorem buy_only_exact_weighted_mean (ts : List Trade) (h : ∀ t ∈ ts, 0 < t.qty) :
    (exactBuyFold ts).2 = totalQty ts ∧
    (exactBuyFold ts).1 * totalQty ts = totalCost ts ∧
    (ts ≠ [] → (exactBuyFold ts).1 = specWeightedMean ts) := by
  obtain ⟨hsnd, hfst⟩ := buyFold_invariant h 0 0 le_rfl
  have hsnd' : (exactBuyFold ts).2 = totalQty ts := by
    rw [exactBuyFold, hsnd]; ring
  have hfst' : (exactBuyFold ts).1 * totalQty ts = totalCost ts := by
    rw [exactBuyFold] at hsnd' ⊢
    rw [← hsnd', hfst]; ring
  refine ⟨hsnd', hfst', fun hne => ?_⟩
  have hpos : 0 < totalQty ts := by
    obtain ⟨t, ts', rfl⟩ := List.exists_cons_of_ne_nil hne
    have h1 : 0 < t.qty := h t (List.mem_cons_self t ts')
    have h2 : 0 ≤ totalQty ts' := totalQty_nonneg fun u hu => h u (List.mem_cons_of_mem t hu)
    simp only [totalQty, List.map_cons, List.sum_cons]
    have : 0 < t.qty + totalQty ts' := by linarith
    simpa [totalQty] using this
  rw [specWeightedMean, eq_div_iff hpos.ne', hfst']

/-- **C3** (witness for the amended theorem): the buy-only run
`[buy 1 @ 10, buy 1 @ 20]` has exact average `15`, the weighted mean. -/
theorem buy_only_exact_weighted_mean_witness :
    (exactBuyFold [⟨"XYZBTC", 10, 1, 1, true⟩, ⟨"XYZBTC", 20, 1, 2, true⟩]).1
      = specWeightedMean [⟨"XYZBTC", 10, 1, 1, true⟩, ⟨"XYZBTC", 20, 1, 2, true⟩] :=
  (buy_only_exact_weighted_mean
      [⟨"XYZBTC", 10, 1, 1, true⟩, ⟨"XYZBTC", 20, 1, 2, true⟩]
      (by intro t ht
          simp only [List.mem_cons, List.not_mem_nil, or_false] at ht
          rcases ht with rfl | rfl <;> norm_num)).2.2 (by simp)

/-- **C4** (confirmed).  A sell trade against an existing position row with
`tx_qty > current_qty` is skipped: the whole engine state — in particular the
row with all its cells (`averagePrice`, `quantity`, `lastTradeTime`,
`breakEvenPrice`, `realizedPnl`) — is left unchanged, and the step is total
(the run continues; lines 136-138 `continue` instead of raising). -/
theorem oversell_rejected (cutoff : ℕ) (st : EngineState) (t : Trade) (row : PositionRow)
    (hf : findRow st.ledger t.symbol = some row) (hs : t.is_buyer = false)
    (hq : row.quantity < t.qty) : tradeStep cutoff st t = st :=
  oversell_skip hf hs hq

/-- **C4** (witness): selling 5 units against a held quantity of 1 leaves the
state unchanged. -/
theorem oversell_rejected_witness :
    tradeStep 0 { ledger := [⟨"ABCBTC", 10, 1, 0, 10, 0⟩], modified := ∅ }
        ⟨"ABCBTC", 10, 5, 1, false⟩
      = { ledger := [⟨"ABCBTC", 10, 1, 0, 10, 0⟩], modified := ∅ } :=
  oversell_rejected 0 { ledger := [⟨"ABCBTC", 10, 1, 0, 10, 0⟩], modified := ∅ }
    ⟨"ABCBTC", 10, 5, 1, false⟩ ⟨"ABCBTC", 10, 1, 0, 10, 0⟩ rfl rfl (by norm_num)

/-- **C5** (counterexample).  With the default cutoff (absent sync-cursor
file, cutoff = `datetime.min`), a trade whose `executedAt` *equals* the
minimum representable timestamp is still skipped by the exclusive bound
`tx_date <= cutoff_date`, so it is not true that every trade is processed:
the buy below has no effect at all. -/
theorem min_timestamp_trade_skipped_cex :
    updatePortfolio (loadCutoff none) { ledger := [], modified := ∅ }
        [⟨"XYZBTC", 10, 5, 0, true⟩]
      = { ledger := [], modified := ∅ } := by
  norm_num [updatePortfolio, tradeStep, loadCutoff, minTimestamp]

/-- **C5** (amended).  The cutoff is an exclusive lower bound: every trade
with `executedAt <= cutoff` is skipped entirely (also when the symbol has no
position row yet); an absent or empty sync-cursor file yields the minimum
representable timestamp, so every trade with `executedAt` *strictly after*
the minimum reaches the per-trade processing body — but a trade exactly at
the minimum timestamp is skipped even then. -/
theorem cutoff_exclusive_default :
    (∀ (cutoff : ℕ) (st : EngineState) (t : Trade),
        t.time ≤ cutoff → tradeStep cutoff st t = st) ∧
    loadCutoff none = minTimestamp ∧
    loadCutoff (some none) = minTimestamp ∧
    (∀ (st : EngineState) (t : Trade),
        minTimestamp < t.time → tradeStep minTimestamp st t = processBody st t) :=
  ⟨fun _ _ _ h => by rw [tradeStep, if_pos h], rfl, rfl,
   fun _ _ h => by rw [tradeStep, if_neg (not_le.mpr h)]⟩

/-- **C5** (witness): a trade at time 3 is skipped under cutoff 5, and a trade
at time 1 under the minimum cutoff reaches the processing body. -/
theorem cutoff_exclusive_default_witness :
    tradeStep 5 { ledger := [], modified := ∅ } ⟨"XYZBTC", 10, 5, 3, true⟩
      = { ledger := [], modified := ∅ } :=
  cutoff_exclusive_default.1 5 { ledger := [], modified := ∅ }
    ⟨"XYZBTC", 10, 5, 3, true⟩ (by decide)

/-- **C6** (counterexample).  A sell of 5 units against a held quantity of 1
passes the cutoff filter (its time 1 is after cutoff 0) and touches its
symbol, yet after the run the modified-symbols set is empty: rejected trades
do not mark their symbol as modified, contrary to the claim that every symbol
touched by a trade passing the cutoff filter appears in the set. -/
theorem overdraft_not_in_modified_cex :
    (updatePortfolio 0
        { ledger := [⟨"ABCBTC", 10, 1, 0, 10, 0⟩], modified := ∅ }
        [⟨"ABCBTC", 10, 5, 1, false⟩]).modified = ∅ ∧
    ¬ ((⟨"ABCBTC", 10, 5, 1, false⟩ : Trade).time ≤ 0) := by
  constructor
  · norm_num [updatePortfolio, tradeStep, processBody, findRow, existingLocals, List.find?]
  · decide

/-- **C6** (amended).  The modified-symbols set records exactly the *accepted*
trades: an accepted trade (passing the cutoff and not an overdraft-rejected
sell) inserts its symbol into the set, a non-accepted trade leaves the whole
state unchanged (zero effect on the ledger), membership in the set is
preserved by the rest of the run, and the run folds the per-trade transition
over the trade list in order. -/
theorem modified_set_accepted (cutoff : ℕ) (st : EngineState) (t : Trade)
    (ts : List Trade) (s : String) :
    (tradeAccepted cutoff st t = true →
      (tradeStep cutoff st t).modified = insert t.symbol st.modified) ∧
    (tradeAccepted cutoff st t = false → tradeStep cutoff st t = st) ∧
    (s ∈ st.modified → s ∈ (updatePortfolio cutoff st ts).modified) ∧
    updatePortfolio cutoff st (t :: ts) = updatePortfolio cutoff (tradeStep cutoff st t) ts :=
  ⟨modified_tradeStep_of_accepted, tradeStep_of_not_accepted,
   fun h => modified_subset_updatePortfolio cutoff ts st h, rfl⟩

/-- **C6** (witness): an accepted buy on an empty ledger inserts its symbol
into the modified set. -/
theorem modified_set_accepted_witness :
    (tradeStep 0 { ledger := [], modified := ∅ } ⟨"XYZBTC", 10, 5, 1, true⟩).modified
      = insert "XYZBTC" (∅ : Finset String) :=
  (modified_set_accepted 0 { ledger := [], modified := ∅ } ⟨"XYZBTC", 10, 5, 1, true⟩
    [] "XYZBTC").1 rfl

/-- **C7** (counterexample).  When the ledger CSV cannot be written the run
does *not* surface a run-level failure: `runPersist false true` completes with
`raised = false` although the ledger was not persisted — the `except IOError`
handler at lines 200-201 only logs the error and falls through. -/
theorem ledger_write_failure_not_raised_cex :
    runPersist false true
      = { ledgerPersisted := false, reportPersisted := true,
          errorLogged := true, raised := false } := rfl

/-- **C7** (amended).  Both persistence failures are swallowed: the run never
raises; a failed ledger write is logged as an error (and the state is simply
not persisted) while the caller is not signalled, and a failed
modified-symbols report write is silently ignored; each write succeeds
exactly when its file is writable. -/
theorem persistence_failures_swallowed (lw rw : Bool) :
    (runPersist lw rw).raised = false ∧
    (runPersist lw rw).ledgerPersisted = lw ∧
    (runPersist lw rw).reportPersisted = rw ∧
    (runPersist lw rw).errorLogged = !lw := by
  cases lw <;> cases rw <;> exact ⟨rfl, rfl, rfl, rfl⟩

/-- **C9** (confirmed).  The side of a trade record is determined by exact
string equality of the fifth field with `"True"` (line 55); for any other
string (including `"true"` or `"TRUE"`) the record's `is_buyer` flag is
`false` and the trade is processed on the sell side — witnessed here by the
sell-only overdraft rejection applying to it. -/
theorem side_flag_exact_match (sym ps qs : String) (time : ℕ) (side : String) (tr : Trade)
    (h : recordOfParts sym ps qs time side = some tr) :
    tr.is_buyer = (side == "True") ∧
    (side ≠ "True" → tr.is_buyer = false ∧
      ∀ (cutoff : ℕ) (st : EngineState) (row : PositionRow),
        findRow st.ledger tr.symbol = some row → row.quantity < tr.qty →
        tradeStep cutoff st tr = st) := by
  rcases hp : parseFloat ps with _ | p <;> rcases hq : parseFloat qs with _ | q <;>
    simp only [recordOfParts, hp, hq] at h
  · cases h
  · cases h
  · cases h
  · injection h with h2
    subst h2
    refine ⟨rfl, fun hne => ?_⟩
    have hb : (side == "True") = false := beq_eq_false_iff_ne.mpr hne
    exact ⟨hb, fun cutoff st row hf hlt => oversell_skip hf hb hlt⟩

/-- **C9** (witness): the record with side field `"true"` (wrong case) parses
with `is_buyer = false`. -/
theorem side_flag_exact_match_witness :
    (({ symbol := "XBTUSD", price := 0, qty := 0, time := 3,
        is_buyer := ("true" == "True") } : Trade)).is_buyer = ("true" == "True") :=
  (side_flag_exact_match "XBTUSD" "0" "0" 3 "true"
    { symbol := "XBTUSD", price := 0, qty := 0, time := 3,
      is_buyer := ("true" == "True") }
    (by simp [recordOfParts, parseFloat, parseUnsigned, parseDigits, digitVal,
      digitsVal])).1

/-- **C10** (confirmed).  A sell applied to an existing position row never
produces a negative quantity: a sell against a row with `quantity ≤ 0` is
rejected outright (positive trade quantity exceeds the held quantity, so the
state is unchanged — an existing short is never enlarged by further sells),
and whenever the row's quantity is non-negative, the row stored for the
symbol after the step still has non-negative quantity (so a negative quantity
can only ever be introduced through the new-position sell path). -/
theorem sell_nonnegative_guard (cutoff : ℕ) (st : EngineState) (t : Trade)
    (row : PositionRow) (hq : 0 < t.qty) (hf : findRow st.ledger t.symbol = some row) :
    (t.is_buyer = false → row.quantity ≤ 0 → tradeStep cutoff st t = st) ∧
    (0 ≤ row.quantity → ∀ row',
      findRow (tradeStep cutoff st t).ledger t.symbol = some row' → 0 ≤ row'.quantity) := by
  constructor
  · intro hs h0
    exact oversell_skip hf hs (lt_of_le_of_lt h0 hq)
  · intro h0 row' hrow'
    by_cases ht : t.time ≤ cutoff
    · rw [tradeStep, if_pos ht, hf] at hrow'
      cases hrow'
      exact h0
    · rw [tradeStep, if_neg ht, processBody] at hrow'
      rcases hL : existingLocals row t with _ | L <;> simp only [hf, hL] at hrow'
      · cases hrow'
        exact h0
      · rw [@findRow_replaceRow t.symbol (storeRow t.symbol t.time L) rfl st.ledger
          (by rw [hf]; rfl)] at hrow'
        cases hrow'
        exact round8_nonneg (existingLocals_some_qty hL h0 hq)

/-- **C10** (witness): a sell of 1 unit against an existing short row of
quantity `-1` is rejected and leaves the state unchanged. -/
theorem sell_nonnegative_guard_witness :
    tradeStep 0 { ledger := [⟨"AAABTC", 10, -1, 0, 0, 0⟩], modified := ∅ }
        ⟨"AAABTC", 5, 1, 1, false⟩
      = { ledger := [⟨"AAABTC", 10, -1, 0, 0, 0⟩], modified := ∅ } :=
  (sell_nonnegative_guard 0 { ledger := [⟨"AAABTC", 10, -1, 0, 0, 0⟩], modified := ∅ }
    ⟨"AAABTC", 5, 1, 1, false⟩ ⟨"AAABTC", 10, -1, 0, 0, 0⟩
    (by norm_num) rfl).1 rfl (by norm_num)

/-! ## Lemmas for the decimal normalizer round trip -/

lemma digitChar_spec (d : ℕ) (h : d < 10) :
    digitVal (digitChar d) = some d ∧
    digitChar d ≠ '.' ∧ digitChar d ≠ ',' ∧ digitChar d ≠ '-' ∧ digitChar d ≠ '+' ∧
    (digitChar d).isWhitespace = false := by
  interval_cases d <;>
    exact ⟨rfl, by decide, by decide, by decide, by decide, by decide⟩

lemma renderNat_chars (n : ℕ) : ∀ c ∈ renderNat n, ∃ d, d < 10 ∧ c = digitChar d := by
  intro c hc
  unfold renderNat at hc
  by_cases h : n = 0
  · rw [if_pos h] at hc
    simp only [List.mem_singleton] at hc
    exact ⟨0, by norm_num, by rw [hc]; rfl⟩
  · rw [if_neg h] at hc
    rcases List.mem_map.mp hc with ⟨d, hd, rfl⟩
    exact ⟨d, Nat.digits_lt_base (by norm_num) (List.mem_reverse.mp hd), rfl⟩

lemma renderNat_ne_nil (n : ℕ) : renderNat n ≠ [] := by
  unfold renderNat
  by_cases h : n = 0
  · simp [h]
  · rw [if_neg h]
    simp [Nat.digits_ne_nil_iff_ne_zero.mpr h]

lemma padZeros_chars (k : ℕ) (l : List Char)
    (h : ∀ c ∈ l, ∃ d, d < 10 ∧ c = digitChar d) :
    ∀ c ∈ padZeros k l, ∃ d, d < 10 ∧ c = digitChar d := by
  intro c hc
  rcases List.mem_append.mp hc with hc | hc
  · exact ⟨0, by norm_num, by rw [List.eq_of_mem_replicate hc]; rfl⟩
  · exact h c hc

lemma parseDigits_digitChars (L : List ℕ) (h : ∀ d ∈ L, d < 10) :
    parseDigits (L.map digitChar) = some L := by
  induction L with
  | nil => rfl
  | cons d ds ih =>
      have h1 := (digitChar_spec d (h d (List.mem_cons_self d ds))).1
      have h2 := ih fun e he => h e (List.mem_cons_of_mem d he)
      rw [List.map_cons, parseDigits, h1, h2]

lemma foldl_digits (L : List ℕ) : ∀ acc : ℕ,
    List.foldl (fun a d => 10 * a + d) acc L.reverse
      = acc * 10 ^ L.length + Nat.ofDigits 10 L := by
  induction L with
  | nil => intro acc; simp
  | cons d ds ih =>
      intro acc
      rw [List.reverse_cons, List.foldl_append, ih acc]
      simp only [List.foldl_cons, List.foldl_nil, Nat.ofDigits_cons, List.length_cons]
      ring

lemma parseDigits_renderNat (n : ℕ) :
    ∃ ds, parseDigits (renderNat n) = some ds ∧ digitsVal ds = n ∧ ds ≠ [] := by
  by_cases h : n = 0
  · subst h
    exact ⟨[0], rfl, rfl, by decide⟩
  · refine ⟨(Nat.digits 10 n).reverse, ?_, ?_, ?_⟩
    · rw [renderNat, if_neg h]
      exact parseDigits_digitChars _ fun d hd =>
        Nat.digits_lt_base (by norm_num) (List.mem_reverse.mp hd)
    · rw [digitsVal, foldl_digits (Nat.digits 10 n) 0, Nat.ofDigits_digits]
      ring
    · simp [Nat.digits_ne_nil_iff_ne_zero.mpr h]

lemma digitsVal_replicate_zero (k : ℕ) (ds : List ℕ) :
    digitsVal (List.replicate k 0 ++ ds) = digitsVal ds := by
  induction k with
  | zero => rfl
  | succ k ih =>
      rw [List.replicate_succ, List.cons_append, digitsVal, List.foldl_cons]
      simpa [digitsVal] using ih

lemma parseDigits_replicate_zero (k : ℕ) (l : List Char) (ds : List ℕ)
    (h : parseDigits l = some ds) :
    parseDigits (List.replicate k '0' ++ l) = some (List.replicate k 0 ++ ds) := by
  induction k with
  | zero => simpa using h
  | succ k ih =>
      rw [List.replicate_succ, List.cons_append, parseDigits]
      rw [show digitVal '0' = some 0 from rfl, ih]
      rfl

lemma renderNat_length_le (b : ℕ) (h : b < 10 ^ 8) : (renderNat b).length ≤ 8 := by
  unfold renderNat
  by_cases h0 : b = 0
  · simp [h0]
  · rw [if_neg h0]
    rw [List.length_map, List.length_reverse]
    by_contra hlen
    push_neg at hlen
    have h1 : 10 ^ (Nat.digits 10 b).length ≤ 10 * b :=
      Nat.base_pow_length_digits_le 10 b (by norm_num) h0
    have h2 : (10 : ℕ) ^ 9 ≤ 10 ^ (Nat.digits 10 b).length :=
      Nat.pow_le_pow_right (by norm_num) hlen
    omega

lemma padZeros_length (k : ℕ) (l : List Char) (h : l.length ≤ k) :
    (padZeros k l).length = k := by
  simp only [padZeros, List.length_append, List.length_replicate]
  omega

lemma takeWhile_middle {p : Char → Bool} :
    ∀ (A : List Char), (∀ a ∈ A, p a = true) → ∀ (x : Char) (F : List Char), p x = false →
      (A ++ x :: F).takeWhile p = A ∧ (A ++ x :: F).dropWhile p = x :: F := by
  intro A
  induction A with
  | nil =>
      intro _ x F hx
      constructor
      · rw [List.nil_append, List.takeWhile_cons, hx]
        simp
      · rw [List.nil_append, List.dropWhile_cons, hx]
        simp
  | cons a as ih =>
      intro hA x F hx
      have ha : p a = true := hA a (List.mem_cons_self a as)
      obtain ⟨h1, h2⟩ := ih (fun b hb => hA b (List.mem_cons_of_mem a hb)) x F hx
      constructor
      · rw [List.cons_append, List.takeWhile_cons, ha, h1]
        simp
      · rw [List.cons_append, List.dropWhile_cons, ha, h2]
        simp

lemma dropWhile_ws_eq_self (l : List Char)
    (h : ∀ c ∈ l, c.isWhitespace = false) : l.dropWhile Char.isWhitespace = l := by
  cases l with
  | nil => rfl
  | cons c cs =>
      rw [List.dropWhile_cons, h c (List.mem_cons_self c cs)]
      simp

lemma pyStrip_eq_self (l : List Char) (h : ∀ c ∈ l, c.isWhitespace = false) :
    pyStrip ⟨l⟩ = ⟨l⟩ := by
  unfold pyStrip
  rw [show (String.mk l).data = l from rfl, dropWhile_ws_eq_self l h,
    dropWhile_ws_eq_self l.reverse (fun c hc => h c (List.mem_reverse.mp hc)),
    List.reverse_reverse]

lemma pyReplace_map (a b : Char) (l : List Char) :
    pyReplace a b ⟨l⟩ = ⟨l.map (fun c => if c == a then b else c)⟩ := rfl

lemma map_replace_comma_digits (l : List Char)
    (h : ∀ c ∈ l, ∃ d, d < 10 ∧ c = digitChar d) :
    l.map (fun c => if c == ',' then '.' else c) = l := by
  induction l with
  | nil => rfl
  | cons c cs ih =>
      obtain ⟨d, hd, rfl⟩ := h c (List.mem_cons_self c cs)
      have hne : (digitChar d == ',') = false :=
        beq_eq_false_iff_ne.mpr (digitChar_spec d hd).2.2.1
      rw [List.map_cons, hne, if_neg (by simp), ih fun e he => h e (List.mem_cons_of_mem _ he)]

lemma parseUnsigned_decimal (A F : List Char) (dsa dsf : List ℕ)
    (hA : ∀ c ∈ A, ∃ d, d < 10 ∧ c = digitChar d)
    (hF : ∀ c ∈ F, ∃ d, d < 10 ∧ c = digitChar d)
    (hAne : A ≠ [])
    (hpa : parseDigits A = some dsa) (hpf : parseDigits F = some dsf) :
    parseUnsigned (A ++ '.' :: F)
      = some ((digitsVal dsa : ℚ) + (digitsVal dsf : ℚ) / 10 ^ F.length) := by
  have hdigA : ∀ c ∈ A, (c != '.') = true := by
    intro c hc
    obtain ⟨d, hd, rfl⟩ := hA c hc
    simpa using (digitChar_spec d hd).2.1
  have hdot : (('.' : Char) != '.') = false := by decide
  obtain ⟨htake, hdrop⟩ := takeWhile_middle A hdigA '.' F hdot
  have hnodot : F.contains '.' = false := by
    simp only [List.contains_eq_any_beq, List.any_eq_false]
    intro c hc
    obtain ⟨d, hd, rfl⟩ := hF c hc
    simp only [beq_iff_eq]
    exact fun e => (digitChar_spec d hd).2.1 e.symm
  have hAemp : A.isEmpty = false := by
    cases A with
    | nil => exact absurd rfl hAne
    | cons a as => rfl
  rw [parseUnsigned]
  simp only [htake, hdrop, hnodot, hAemp, Bool.false_and, Bool.false_eq_true, if_false,
    hpa, hpf]

lemma round8_natAbs (x : ℚ) :
    round8 x
      = (if x < 0 then -1 else 1)
        * ((((round (x * 100000000)).natAbs : ℕ) : ℚ) / 100000000) := by
  by_cases hx : x < 0
  · have hm : round (x * 100000000) ≤ 0 := by
      rw [round_eq]
      have h0 : ⌊(1 / 2 : ℚ)⌋ = 0 := by norm_num
      calc ⌊x * 100000000 + 1 / 2⌋ ≤ ⌊(1 / 2 : ℚ)⌋ := by
            apply Int.floor_mono
            nlinarith
        _ = 0 := h0
    rw [if_pos hx, round8]
    rw [Int.cast_natAbs, abs_of_nonpos (by exact_mod_cast hm)]
    push_cast
    ring
  · have hm : (0 : ℤ) ≤ round (x * 100000000) := by
      apply round_nonneg_of_nonneg
      nlinarith [not_lt.mp hx]
    rw [if_neg hx, round8]
    rw [Int.cast_natAbs, abs_of_nonneg (by exact_mod_cast hm)]
    ring

lemma natAbs_div_mod_value (n : ℕ) :
    ((n / 100000000 : ℕ) : ℚ) + ((n % 100000000 : ℕ) : ℚ) / 10 ^ 8 = (n : ℚ) / 100000000 := by
  have h := Nat.div_add_mod n 100000000
  have hc : ((100000000 * (n / 100000000) + n % 100000000 : ℕ) : ℚ) = (n : ℚ) := by
    exact_mod_cast congrArg (fun m : ℕ => (m : ℚ)) h
  push_cast at hc
  field_simp
  linarith

lemma parseFloat_data (l : List Char) :
    parseFloat ⟨l⟩
      = match l with
        | [] => none
        | c :: rest =>
            if c == '-' then (parseUnsigned rest).map (fun q => -q)
            else if c == '+' then parseUnsigned rest
            else parseUnsigned (c :: rest) := rfl

lemma parseFloat_formatDecimal (x : ℚ) :
    parseFloat (pyReplace ',' '.' (formatDecimal x)) = some (round8 x) := by
  set n : ℕ := (round (x * 100000000)).natAbs with hn
  set A : List Char := renderNat (n / 100000000) with hA
  set F : List Char := padZeros 8 (renderNat (n % 100000000)) with hF
  have hAchars : ∀ c ∈ A, ∃ d, d < 10 ∧ c = digitChar d := renderNat_chars _
  have hFchars : ∀ c ∈ F, ∃ d, d < 10 ∧ c = digitChar d :=
    padZeros_chars 8 _ (renderNat_chars _)
  obtain ⟨dsa, hpa, hva, hane⟩ := parseDigits_renderNat (n / 100000000)
  obtain ⟨dsb, hpb, hvb, _⟩ := parseDigits_renderNat (n % 100000000)
  have hmod : n % 100000000 < 10 ^ 8 :=
    lt_of_lt_of_le (Nat.mod_lt n (by norm_num)) (by norm_num)
  have hlen : F.length = 8 := padZeros_length 8 _ (renderNat_length_le _ hmod)
  have hpf : parseDigits F
      = some (List.replicate (8 - (renderNat (n % 100000000)).length) 0 ++ dsb) :=
    parseDigits_replicate_zero _ _ _ hpb
  have hvf : digitsVal (List.replicate (8 - (renderNat (n % 100000000)).length) 0 ++ dsb)
      = n % 100000000 := by rw [digitsVal_replicate_zero, hvb]
  have hvalue : parseUnsigned (A ++ '.' :: F)
      = some (((n / 100000000 : ℕ) : ℚ) + ((n % 100000000 : ℕ) : ℚ) / 10 ^ 8) := by
    rw [parseUnsigned_decimal A F dsa _ hAchars hFchars (by rw [hA]; exact renderNat_ne_nil _)
      hpa hpf, hva, hvf, hlen]
  have hvalue8 : (((n / 100000000 : ℕ) : ℚ) + ((n % 100000000 : ℕ) : ℚ) / 10 ^ 8)
      = (n : ℚ) / 100000000 := natAbs_div_mod_value n
  have hmap : (pyReplace ',' '.' (formatDecimal x)).data
      = (if x < 0 then ['-'] else []) ++ (A ++ '.' :: F) := by
    show ((if x < 0 then ['-'] else []) ++ A ++ [','] ++ F).map
        (fun c => if c == ',' then '.' else c) = _
    rw [List.map_append, List.map_append, List.map_append,
      map_replace_comma_digits A hAchars, map_replace_comma_digits F hFchars]
    have hsign : (if x < 0 then ['-'] else []).map (fun c => if c == ',' then '.' else c)
        = (if x < 0 then ['-'] else []) := by
      by_cases hx : x < 0 <;> simp [hx]
    rw [hsign]
    have hcomma : [','].map (fun c => if c == ',' then '.' else c) = ['.'] := by decide
    rw [hcomma]
    simp [List.append_assoc]
  have hstr : pyReplace ',' '.' (formatDecimal x)
      = ⟨(if x < 0 then ['-'] else []) ++ (A ++ '.' :: F)⟩ := by
    conv_lhs =>
      rw [show pyReplace ',' '.' (formatDecimal x)
        = ⟨(pyReplace ',' '.' (formatDecimal x)).data⟩ from rfl]
    rw [hmap]
  rw [hstr]
  by_cases hx : x < 0
  · rw [if_pos hx]
    have hred : parseFloat ⟨'-' :: (A ++ '.' :: F)⟩
        = (parseUnsigned (A ++ '.' :: F)).map (fun q => -q) := rfl
    rw [show (['-'] ++ (A ++ '.' :: F)) = '-' :: (A ++ '.' :: F) from rfl, hred,
      hvalue, hvalue8, round8_natAbs x, if_pos hx]
    simp only [Option.map_some', Option.some.injEq]
    rw [← hn]
    ring
  · rw [if_neg hx, List.nil_append]
    rcases hAcons : A with _ | ⟨c0, A1⟩
    · exact absurd hAcons (by rw [hA]; exact renderNat_ne_nil _)
    · obtain ⟨d, hd, hc0⟩ := hAchars c0 (by rw [hAcons]; exact List.mem_cons_self c0 A1)
      have hneg : (c0 == '-') = false := by
        rw [hc0]; exact beq_eq_false_iff_ne.mpr (digitChar_spec d hd).2.2.2.1
      have hpos : (c0 == '+') = false := by
        rw [hc0]; exact beq_eq_false_iff_ne.mpr (digitChar_spec d hd).2.2.2.2.1
      have hred : parseFloat ⟨c0 :: (A1 ++ '.' :: F)⟩
          = parseUnsigned (c0 :: (A1 ++ '.' :: F)) := by
        rw [parseFloat_data]
        simp only [hneg, hpos, Bool.false_eq_true, if_false]
      rw [show ((c0 :: A1) ++ '.' :: F) = c0 :: (A1 ++ '.' :: F) from rfl, hred,
        show (c0 :: (A1 ++ '.' :: F)) = ((c0 :: A1) ++ '.' :: F) from rfl, ← hAcons,
        hvalue, hvalue8, round8_natAbs x, if_neg hx]
      rw [← hn, one_mul]

lemma isEmpty_false_of_ne_nil (l : List Char) (h : l ≠ []) : l.isEmpty = false := by
  cases l with
  | nil => exact absurd rfl h
  | cons a as => rfl

lemma formatDecimal_no_ws (x : ℚ) :
    ∀ c ∈ (formatDecimal x).data, c.isWhitespace = false := by
  intro c hc
  have hc' : c ∈ (if x < 0 then ['-'] else [])
      ++ renderNat ((round (x * 100000000)).natAbs / 100000000)
      ++ [','] ++ padZeros 8 (renderNat ((round (x * 100000000)).natAbs % 100000000)) := hc
  rcases List.mem_append.mp hc' with h1 | hD
  · rcases List.mem_append.mp h1 with h2 | hC
    · rcases List.mem_append.mp h2 with hS | hR
      · by_cases hx : x < 0
        · rw [if_pos hx] at hS
          simp only [List.mem_singleton] at hS
          rw [hS]; decide
        · rw [if_neg hx] at hS
          simp at hS
      · obtain ⟨d, hd, rfl⟩ := renderNat_chars _ c hR
        exact (digitChar_spec d hd).2.2.2.2.2
    · simp only [List.mem_singleton] at hC
      rw [hC]; decide
  · obtain ⟨d, hd, rfl⟩ := padZeros_chars 8 _ (renderNat_chars _) c hD
    exact (digitChar_spec d hd).2.2.2.2.2

lemma formatDecimal_ne_nil (x : ℚ) : (formatDecimal x).data ≠ [] := by
  intro h
  have hc : (',' : Char) ∈ (formatDecimal x).data := by
    show (',' : Char) ∈ (if x < 0 then ['-'] else [])
      ++ renderNat ((round (x * 100000000)).natAbs / 100000000)
      ++ [','] ++ padZeros 8 (renderNat ((round (x * 100000000)).natAbs % 100000000))
    refine List.mem_append.mpr (Or.inl ?_)
    exact List.mem_append.mpr (Or.inr (List.mem_singleton.mpr rfl))
  rw [h] at hc
  cases hc

lemma safeFloat_formatDecimal (x : ℚ) : safeFloat (formatDecimal x) = some (round8 x) := by
  have hstrip : pyStrip (formatDecimal x) = formatDecimal x :=
    pyStrip_eq_self (formatDecimal x).data (formatDecimal_no_ws x)
  rw [safeFloat]
  simp only [hstrip, isEmpty_false_of_ne_nil _ (formatDecimal_ne_nil x),
    Bool.false_eq_true, if_false]
  exact parseFloat_formatDecimal x

lemma pyReplace_comma_point (c : Char) :
    (if ((if c == ',' then '.' else c) == ',') = true then ('.' : Char)
      else if c == ',' then '.' else c) = if c == ',' then '.' else c := by
  by_cases hc : (c == ',') = true
  · simp [hc]
  · simp only [Bool.not_eq_true] at hc
    simp [hc]

lemma pyReplace_comma_idem (s : String) :
    pyReplace ',' '.' (pyReplace ',' '.' s) = pyReplace ',' '.' s := by
  show String.mk ((s.data.map fun c => if c == ',' then '.' else c).map
      fun c => if c == ',' then '.' else c) = _
  rw [List.map_map]
  congr 1
  apply List.map_congr_left
  intro c _
  exact pyReplace_comma_point c

lemma pyReplace_no_ws (s : String) (h : ∀ c ∈ s.data, c.isWhitespace = false) :
    ∀ c ∈ (pyReplace ',' '.' s).data, c.isWhitespace = false := by
  intro c hc
  rcases List.mem_map.mp hc with ⟨c0, hc0, rfl⟩
  by_cases h0 : (c0 == ',') = true
  · simp only [h0, if_true]
    decide
  · simp only [h0, Bool.false_eq_true, if_false]
    exact h c0 hc0

lemma safeFloat_dot (x : ℚ) :
    safeFloat (pyReplace ',' '.' (formatDecimal x)) = some (round8 x) := by
  have hws := pyReplace_no_ws (formatDecimal x) (formatDecimal_no_ws x)
  have hne : (pyReplace ',' '.' (formatDecimal x)).data ≠ [] := by
    show (formatDecimal x).data.map (fun c => if c == ',' then '.' else c) ≠ []
    simp only [ne_eq, List.map_eq_nil_iff]
    exact formatDecimal_ne_nil x
  have hstrip : pyStrip (pyReplace ',' '.' (formatDecimal x))
      = pyReplace ',' '.' (formatDecimal x) :=
    pyStrip_eq_self _ hws
  rw [safeFloat]
  simp only [hstrip, isEmpty_false_of_ne_nil _ hne, Bool.false_eq_true, if_false]
  rw [pyReplace_comma_idem]
  exact parseFloat_formatDecimal x

lemma safeFloat_ws (s : String) (h : ∀ c ∈ s.data, c.isWhitespace = true) :
    safeFloat s = some 0 := by
  have hdrop : s.data.dropWhile Char.isWhitespace = [] :=
    List.dropWhile_eq_nil_iff.mpr h
  have hstrip : pyStrip s = ⟨[]⟩ := by
    unfold pyStrip
    rw [hdrop]
    rfl
  rw [safeFloat]
  simp only [hstrip]
  rfl

lemma round8_fixed (m : ℤ) : round8 ((m : ℚ) / 100000000) = (m : ℚ) / 100000000 := by
  rw [round8, div_mul_cancel₀ _ (show (100000000 : ℚ) ≠ 0 by norm_num), round_intCast]

lemma round8_close (x : ℚ) : |round8 x - x| ≤ 1 / 200000000 := by
  have h := abs_sub_round (x * 100000000)
  have h2 : |(↑(round (x * 100000000)) : ℚ) - x * 100000000| ≤ 1 / 2 := by
    rw [abs_sub_comm] at h
    exact h
  rw [round8]
  have h3 : (↑(round (x * 100000000)) : ℚ) / 100000000 - x
      = ((↑(round (x * 100000000)) : ℚ) - x * 100000000) / 100000000 := by ring
  rw [h3, abs_div, abs_of_pos (show (0 : ℚ) < 100000000 by norm_num)]
  calc |(↑(round (x * 100000000)) : ℚ) - x * 100000000| / 100000000
      ≤ (1 / 2) / 100000000 := by
        exact div_le_div_of_nonneg_right h2 (by norm_num)
    _ = 1 / 200000000 := by norm_num

/-- **C8** (confirmed).  The decimal normalizer round trip: for every rational
`x`, `_safe_float (_format_decimal x)` returns `round8 x`, the value of `x`
rounded to 8 decimal places — so it reproduces `x` exactly whenever `x` is an
8-decimal value (`m / 10^8`) and within `5e-9` in general; the parser accepts
the `'.'`-delimited form of the same string equally; and empty or
whitespace-only input parses to `0`. -/
theorem parse_format_round_trip :
    (∀ x : ℚ, safeFloat (formatDecimal x) = some (round8 x)) ∧
    (∀ x : ℚ, safeFloat (pyReplace ',' '.' (formatDecimal x)) = some (round8 x)) ∧
    (∀ m : ℤ, round8 ((m : ℚ) / 100000000) = (m : ℚ) / 100000000) ∧
    (∀ x : ℚ, |round8 x - x| ≤ 1 / 200000000) ∧
    (∀ s : String, (∀ c ∈ s.data, c.isWhitespace = true) → safeFloat s = some 0) :=
  ⟨safeFloat_formatDecimal, safeFloat_dot, round8_fixed, round8_close, safeFloat_ws⟩

/-- **C8** (witness): the whitespace-only string `" "` parses to `0`. -/
theorem parse_format_round_trip_witness : safeFloat " " = some 0 :=
  parse_format_round_trip.2.2.2.2 " " (by decide)
